import Mathlib

/-!
Verification of the bytecode interpreter (scanner, chunk, compiler
synchronization, VM) of the crafting-interpreters repository, shallowly
embedded in Lean from `src/bytecode/{scanner,chunk,compiler,value,object,
table,vm}.rs`.

Conventions:
* machine integers (`u8`, `u32`, `usize`) are modelled as `Nat`, with an
  explicit `% 2 ^ 32` where the source relies on wrapping (`hash_string`);
* Rust code that can panic (`unwrap`, slice indexing) is modelled in
  `Option`, with `none` standing for a panic;
* the value stack (`Vec<Value>`) is a `List Value` whose *last* element is
  the top of the stack, matching `Vec::push`/`Vec::pop`;
* IEEE-754 `f64` is modelled at the granularity the claims exercise: a NaN
  element, two signed infinities, and finite values as exact rationals
  (rounding, overflow and signed zero are not exercised by any claim).
-/

namespace Lox

/-- Model of the `f64` payload of `HashableF64` (`value.rs`): NaN, signed
infinities, and finite doubles represented as exact rationals. -/
inductive F64 where
| nan : F64
| inf (neg : Bool) : F64
| fin (q : ℚ) : F64
deriving DecidableEq, Repr

/-- IEEE-754 `==` on doubles, the comparison performed by the `PartialEq`
implementation that `HashableF64` derives from `f64`: NaN compares unequal
to everything, including itself. -/
def feq : F64 → F64 → Bool
| F64.nan, _ => false
| _, F64.nan => false
| F64.inf a, F64.inf b => a == b
| F64.fin a, F64.fin b => a == b
| _, _ => false

/-- IEEE-754 `<` on doubles (any comparison involving NaN is false). -/
def flt : F64 → F64 → Bool
| F64.nan, _ => false
| _, F64.nan => false
| F64.inf true, F64.inf true => false
| F64.inf true, _ => true
| F64.inf false, _ => false
| F64.fin _, F64.inf neg => !neg
| F64.fin a, F64.fin b => decide (a < b)

/-- IEEE-754 `>`; `a > b` iff `b < a`. -/
def fgt (a b : F64) : Bool := flt b a

/-- `f64` negation. -/
def fneg : F64 → F64
| F64.nan => F64.nan
| F64.inf neg => F64.inf (!neg)
| F64.fin q => F64.fin (-q)

/-- `f64` addition (exact on finite values; no overflow-to-infinity). -/
def fadd : F64 → F64 → F64
| F64.nan, _ => F64.nan
| _, F64.nan => F64.nan
| F64.inf a, F64.inf b => if a = b then F64.inf a else F64.nan
| F64.inf a, F64.fin _ => F64.inf a
| F64.fin _, F64.inf b => F64.inf b
| F64.fin a, F64.fin b => F64.fin (a + b)

/-- `f64` subtraction. -/
def fsub (a b : F64) : F64 := fadd a (fneg b)

/-- `f64` multiplication (exact on finite values). -/
def fmul : F64 → F64 → F64
| F64.nan, _ => F64.nan
| _, F64.nan => F64.nan
| F64.inf a, F64.inf b => F64.inf (a != b)
| F64.inf a, F64.fin q => if q = 0 then F64.nan else F64.inf (a != decide (q < 0))
| F64.fin q, F64.inf b => if q = 0 then F64.nan else F64.inf (b != decide (q < 0))
| F64.fin a, F64.fin b => F64.fin (a * b)

/-- `f64` division (exact on finite values; division by zero yields the
appropriate infinity except `0/0`, which is NaN). -/
def fdiv : F64 → F64 → F64
| F64.nan, _ => F64.nan
| _, F64.nan => F64.nan
| F64.inf _, F64.inf _ => F64.nan
| F64.inf a, F64.fin q => F64.inf (a != decide (q < 0))
| F64.fin _, F64.inf _ => F64.fin 0
| F64.fin a, F64.fin b =>
    if b = 0 then (if a = 0 then F64.nan else F64.inf (decide (a < 0)))
    else F64.fin (a / b)

/-- UTF-8 encoding of one character, as the list of its byte values
(`str::as_bytes` views a Rust string this way). -/
def utf8Bytes (c : Char) : List Nat :=
let n := c.toNat
if n < 128 then [n]
else if n < 2048 then [192 + n / 64, 128 + n % 64]
else if n < 65536 then [224 + n / 4096, 128 + n / 64 % 64, 128 + n % 64]
else [240 + n / 262144, 128 + n / 4096 % 64, 128 + n / 64 % 64, 128 + n % 64]

/-- `hash_string` from `table.rs`: 32-bit FNV-1a over the UTF-8 bytes of
the key, with wrapping multiplication. -/
def hash_string (key : List Char) : Nat :=
(key.map utf8Bytes).flatten.foldl (fun h b => ((h ^^^ b) * 16777619) % 2 ^ 32) 2166136261

/-- `StringObj` from `object.rs`: character payload plus the precomputed
FNV-1a hash; equality is the derived structural one (both fields). -/
structure StringObj where
string : List Char
hash : Nat
deriving DecidableEq, Repr

/-- `StringObj::new`. -/
def StringObj.new (s : List Char) : StringObj := ⟨s, hash_string s⟩

/-- `Obj` from `object.rs`. Strings are modelled in full; closures,
functions and native functions carry an abstract identifier in place of
their boxed payload (a function's chunk is mutually recursive with `Value`
through its constant pool, and no claim inspects those payloads). -/
inductive Obj where
| string (s : StringObj)
| closure (id : Nat)
| function (id : Nat)
| nativeFunction (id : Nat)
deriving DecidableEq, Repr

/-- `Value` from `value.rs`: Nil, Bool, Number (a `HashableF64`), Obj. -/
inductive Value where
| nil
| bool (b : Bool)
| number (x : F64)
| obj (o : Obj)
deriving DecidableEq, Repr

/-- The derived `PartialEq` on `Obj`: structural on strings (payload and
hash), by the abstract identifier on the remaining variants. -/
def objEq : Obj → Obj → Bool
| Obj.string a, Obj.string b => a == b
| Obj.closure a, Obj.closure b => a == b
| Obj.function a, Obj.function b => a == b
| Obj.nativeFunction a, Obj.nativeFunction b => a == b
| _, _ => false

/-- The derived `PartialEq` on `Value`: variant-wise; `Number` compares
via the `f64` comparison `feq`, so NaN is unequal to itself. -/
def valueEq : Value → Value → Bool
| Value.nil, Value.nil => true
| Value.bool a, Value.bool b => a == b
| Value.number a, Value.number b => feq a b
| Value.obj a, Value.obj b => objEq a b
| _, _ => false

/-- `Value::is_falsey`. -/
def Value.is_falsey : Value → Bool
| Value.nil => true
| Value.bool b => !b
| _ => false

/-- `VM::pop`: `self.stack.pop().unwrap()` — panics (`none`) on an empty
stack, otherwise yields the top value and the shortened stack. -/
def popV (st : List Value) : Option (Value × List Value) :=
match st.getLast? with
| none => none
| some v => some (v, st.dropLast)

/-- `VM::peek(distance)`: `self.stack[self.stack.len() - distance - 1]` —
the index computation underflows (panics) when `distance ≥ len`. -/
def peekV (st : List Value) (distance : Nat) : Option Value :=
if distance < st.length then st.get? (st.length - distance - 1) else none

/-- The VM's `Table` alias (`vm.rs` line 6) is `HashMap<StringObj, Value>`;
modelled as an association list with unique keys, observed through
lookup/insert/remove. -/
abbrev Gtable := List (StringObj × Value)

/-- `HashMap::get`. -/
def gLookup : Gtable → StringObj → Option Value
| [], _ => none
| (k, v) :: rest, key => if k = key then some v else gLookup rest key

/-- `HashMap::insert`: replaces the value of an existing key or appends a
new binding; returns the new table and the previous value (`None` when the
key was absent). -/
def gInsert : Gtable → StringObj → Value → Gtable × Option Value
| [], key, v => ([(key, v)], none)
| (k, v0) :: rest, key, v =>
    if k = key then ((key, v) :: rest, some v0)
    else
      let p := gInsert rest key v
      ((k, v0) :: p.1, p.2)

/-- `HashMap::remove`: drops the binding for the key. -/
def gRemove (g : Gtable) (key : StringObj) : Gtable :=
g.filter (fun p => !(p.1 = key : Bool))

/-- The message formatted by `runtime_error!(self, "Undefined variable
'{}'.", name)`. -/
def undefinedVarMsg (name : StringObj) : List Char :=
"Undefined variable ".toList ++ Char.ofNat 39 :: name.string ++ [Char.ofNat 39, Char.ofNat 46]

/-- Outcome of one dispatch arm of `VM::run` that can raise a runtime
error: either fall through to the next instruction, or return
`InterpretResult::RuntimeError`. `printed` records the message written by
`runtime_error!` (`none` when no message was printed), and `stack` the
value stack left behind (`runtime_error!` ends in `reset_stack`, which
clears it). -/
inductive BinResult where
| next (stack : List Value)
| runtimeError (printed : Option (List Char)) (stack : List Value)
deriving DecidableEq, Repr

/-- The `OpCode::SetGlobal` arm of `VM::run` (vm.rs lines 185-194), given
the name constant already read: `peek(0)`; `insert`; if the key was new,
`remove` it again, print "Undefined variable 'X'." and error out (clearing
the stack), else fall through with the stack untouched. The result also
carries the globals table. -/
def setGlobalStep (g : Gtable) (name : StringObj) (st : List Value) :
    Option (BinResult × Gtable) :=
match peekV st 0 with
| none => none
| some value =>
  let p := gInsert g name value
  if p.2.isNone then
    some (BinResult.runtimeError (some (undefinedVarMsg name)) [], gRemove p.1 name)
  else some (BinResult.next st, p.1)

/-- The `OpCode::GetLocal` arm of `VM::run` (vm.rs lines 157-162):
pushes `stack[frame.slot + slot]`. -/
def getLocalStep (st : List Value) (frameSlot slot : Nat) : Option (List Value) :=
match st.get? (frameSlot + slot) with
| none => none
| some v => some (st ++ [v])

/-- The `OpCode::SetLocal` arm of `VM::run` (vm.rs lines 163-167), given
the operand byte `slot` already read: `stack[slot] = peek(0)` — the write
indexes the stack with the bare operand (the executing frame's `slot` base
is not consulted), and nothing is popped. -/
def setLocalStep (st : List Value) (slot : Nat) : Option (List Value) :=
match peekV st 0 with
| none => none
| some value => if slot < st.length then some (st.set slot value) else none

/-- The `Obj::NativeFunction` branch of `VM::call_value` (vm.rs lines
322-328), with the host callable `f` passed in for the stored function
pointer: the callable is invoked with `(arg_count, &[self.peek(arg_count)])`
— a one-element slice — then the stack is truncated to
`len - arg_count + 1` elements and the result pushed. -/
def nativeCallStep (f : Nat → List Value → Value) (st : List Value)
    (argCount : Nat) : Option (List Value) :=
match peekV st argCount with
| none => none
| some callee =>
  let result := f argCount [callee]
  let newStackSize := st.length - argCount + 1
  some (st.take newStackSize ++ [result])

/-- The `binary_op!` macro of `vm.rs` (lines 62-71): pop `b`, pop `a`; if
both are Numbers push `f a b`; otherwise return
`InterpretResult::RuntimeError` directly (no message is printed and the
stacks are not reset). -/
def binary_op (f : F64 → F64 → Value) (st : List Value) : Option BinResult :=
match popV st with
| none => none
| some (b, st1) =>
  match popV st1 with
  | none => none
  | some (a, st2) =>
    match b, a with
    | Value.number bv, Value.number av => some (BinResult.next (st2 ++ [f av bv]))
    | _, _ => some (BinResult.runtimeError none st2)

/-- `OpCode::Subtract` arm: `binary_op!(self, Value::Number, -)`. -/
def subtractStep : List Value → Option BinResult :=
binary_op (fun a b => Value.number (fsub a b))

/-- `OpCode::Multiply` arm: `binary_op!(self, Value::Number, *)`. -/
def multiplyStep : List Value → Option BinResult :=
binary_op (fun a b => Value.number (fmul a b))

/-- `OpCode::Divide` arm: `binary_op!(self, Value::Number, /)`. -/
def divideStep : List Value → Option BinResult :=
binary_op (fun a b => Value.number (fdiv a b))

/-- `OpCode::Greater` arm: `binary_op!(self, Value::Bool, >)`. -/
def greaterStep : List Value → Option BinResult :=
binary_op (fun a b => Value.bool (fgt a b))

/-- `OpCode::Less` arm: `binary_op!(self, Value::Bool, <)`. -/
def lessStep : List Value → Option BinResult :=
binary_op (fun a b => Value.bool (flt a b))

/-- The `OpCode::Equal` arm of `VM::run` (vm.rs lines 195-199): pop `b`,
pop `a`, push `Bool(a == b)`. -/
def equalStep (st : List Value) : Option (List Value) :=
match popV st with
| none => none
| some (b, st1) =>
  match popV st1 with
  | none => none
  | some (a, st2) => some (st2 ++ [Value.bool (valueEq a b)])

/-- `clock_native` from `vm.rs` (lines 92-99). The external reading
`SystemTime::now().duration_since(UNIX_EPOCH)` is supplied as a parameter:
`some m` is a successful reading of `m` milliseconds, `none` the `Err`
case for a clock before the epoch, which `unwrap_or` turns into a zero
duration. The `u128 → f64` cast is modelled exactly (it cannot change the
sign). The two parameters of the native signature are ignored by the body
(`_arg_count`, `_args`). -/
def clock_native (durationSinceEpochMs : Option Nat) (_argCount : Nat)
    (_args : List Value) : Value :=
Value.number (F64.fin ((durationSinceEpochMs.getD 0 : Nat) : ℚ))

/-- `TokenType` from `scanner.rs`. -/
inductive TokenType where
| LeftParen | RightParen | LeftBrace | RightBrace
| Comma | Dot | Minus | Plus | Semicolon | Slash | Star
| Bang | BangEqual | Equal | EqualEqual
| Greater | GreaterEqual | Less | LessEqual
| Identifier | String | Number
| And | Class | Else | False | Fun | For | If | Nil | Or
| Print | Return | Super | This | True | Var | While
| Error | Eof
deriving DecidableEq, Repr

/-- The token kinds matched by the `match self.current.r#type` arm inside
`Parser::synchronize` (compiler.rs lines 544-554). -/
def isSyncStart : TokenType → Bool
| TokenType.Class => true
| TokenType.Fun => true
| TokenType.Var => true
| TokenType.For => true
| TokenType.If => true
| TokenType.While => true
| TokenType.Print => true
| TokenType.Return => true
| _ => false

/-- Fuel-indexed iteration of the `while` loop in `Parser::synchronize`
(compiler.rs lines 540-555). The loop reads `self.previous.r#type` and
`self.current.r#type` and its body mutates nothing (the `self.advance()`
on line 557 sits after the loop), so the parser state is threaded
unchanged from one iteration to the next; `some ()` means the loop
terminated within `fuel` iterations, `none` that it did not. -/
def synchronizeLoop (fuel : Nat) (previous current : TokenType) : Option Unit :=
match fuel with
| 0 => none
| fuel + 1 =>
  if current = TokenType.Eof then some ()
  else if previous = TokenType.Semicolon then some ()
  else if isSyncStart current then some ()
  else synchronizeLoop fuel previous current

/-- One run of the run-length line table of `chunk.rs`. -/
structure LineNumber where
number : Nat
count : Nat
deriving DecidableEq, Repr

/-- `Chunk` from `chunk.rs`, restricted to the fields the line-table
claims read (`code` and `lines`; the constant pool is untouched by
`write`/`get_line`). -/
structure Chunk where
code : List Nat
lines : List LineNumber
deriving DecidableEq, Repr

/-- `Chunk::write` (chunk.rs lines 59-70): append the byte; if the last
run is for the same line bump its count, otherwise append a fresh run of
count 1. -/
def Chunk.write (c : Chunk) (byte line : Nat) : Chunk :=
let code := c.code ++ [byte]
match c.lines.getLast? with
| some lastLine =>
    if lastLine.number = line then
      ⟨code, c.lines.dropLast ++ [⟨lastLine.number, lastLine.count + 1⟩]⟩
    else ⟨code, c.lines ++ [⟨line, 1⟩]⟩
| none => ⟨code, [⟨line, 1⟩]⟩

/-- The `for` loop of `Chunk::get_line` (chunk.rs lines 160-172):
`number` and `current_position` are the loop-carried variables. -/
def getLineGo (index : Nat) : List LineNumber → Nat → Nat → Nat
| [], number, _ => number
| l :: rest, number, currentPosition =>
    if currentPosition > index then number
    else getLineGo index rest l.number (currentPosition + l.count)

/-- `Chunk::get_line`. -/
def Chunk.get_line (c : Chunk) (index : Nat) : Nat :=
getLineGo index c.lines 0 0

/-- The chunk produced by a sequence of `write (byte, line)` calls,
starting from `Chunk::new`. -/
def chunkOfWrites (ws : List (Nat × Nat)) : Chunk :=
ws.foldl (fun c p => c.write p.1 p.2) ⟨[], []⟩

/-!
## Scanner (`scanner.rs`)

The Rust scanner stores the source as a `str` and mixes two addressings of
it: `start`/`current` are compared against `source.len()` (its *byte*
length) and used to slice it (byte indices), while characters are fetched
with `source.chars().nth(i)` (a *character* index) followed by `unwrap()`.
We model the source as its list of characters together with `strLen`, its
UTF-8 byte length; `chars().nth(i).unwrap()` is `List.get?` in `Option`
(`none` = panic), and byte slicing walks characters by their `utf8Size`
(`none` = out of range or not a character boundary = panic).

Every loop of the scanner advances `current` by at least 1 per iteration
and only iterates while `current` is below `strLen source`, so
`strLen source - current` bounds the number of remaining iterations; the
loops are written with that quantity as structural fuel, and the fuel-0
fallthrough returns the same value the Rust loop produces when it exits
with `current` at or past the end.
-/

/-- `Token` from `scanner.rs` (`slice` is the borrowed `&str`). -/
structure Token where
type : TokenType
slice : List Char
line : Nat
deriving DecidableEq, Repr

/-- `str::len` of the source: its UTF-8 byte length. -/
def strLen (src : List Char) : Nat := (src.map Char.utf8Size).sum

/-- Byte slicing `&source[a..b]`: `none` models the panic when an index is
out of range, not on a character boundary, or `a > b`. -/
def byteSlice : List Char → Nat → Nat → Option (List Char)
| _, 0, 0 => some []
| [], _, _ => none
| c :: cs, 0, b =>
    if c.utf8Size ≤ b then (byteSlice cs 0 (b - c.utf8Size)).map (fun l => c :: l)
    else none
| c :: cs, a, b =>
    if c.utf8Size ≤ a ∧ a ≤ b then byteSlice cs (a - c.utf8Size) (b - c.utf8Size)
    else none

/-- `Scanner` from `scanner.rs`. -/
structure Scanner where
source : List Char
start : Nat
current : Nat
line : Nat
deriving DecidableEq, Repr

/-- `Scanner::new`. -/
def Scanner.new (src : List Char) : Scanner := ⟨src, 0, 0, 1⟩

/-- `Scanner::is_at_end`: `self.current >= self.source.len()`. -/
def Scanner.is_at_end (s : Scanner) : Bool := strLen s.source ≤ s.current

/-- `Scanner::advance`: `current += 1` then
`source.chars().nth(current - 1).unwrap()`. -/
def Scanner.advance (s : Scanner) : Option (Char × Scanner) :=
match s.source.get? s.current with
| none => none
| some c => some (c, { s with current := s.current + 1 })

/-- `Scanner::peek`: the NUL character at end of input, otherwise
`chars().nth(current).unwrap()` (which panics — `none` — whenever the
character index `current` is exhausted before the byte length is). -/
def Scanner.peek (s : Scanner) : Option Char :=
if s.is_at_end then some (Char.ofNat 0) else s.source.get? s.current

/-- `Scanner::peek_next`. -/
def Scanner.peek_next (s : Scanner) : Option Char :=
if strLen s.source ≤ s.current + 1 then some (Char.ofNat 0)
else s.source.get? (s.current + 1)

/-- `Scanner::matches`. -/
def Scanner.matches (s : Scanner) (expected : Char) : Option (Bool × Scanner) :=
if s.is_at_end then some (false, s)
else
  match s.peek with
  | none => none
  | some c =>
    if c ≠ expected then some (false, s)
    else some (true, { s with current := s.current + 1 })

/-- `Scanner::is_alpha`: `c.is_ascii_alphabetic() || c == '_'`. -/
def is_alpha (c : Char) : Bool := c.isAlpha || c = '_'

/-- `Scanner::make_token`: the token's slice is `&source[start..current]`. -/
def Scanner.make_token (s : Scanner) (t : TokenType) : Option Token :=
match byteSlice s.source s.start s.current with
| none => none
| some sl => some ⟨t, sl, s.line⟩

/-- `Scanner::error_token`. -/
def Scanner.error_token (s : Scanner) (message : List Char) : Token :=
⟨TokenType.Error, message, s.line⟩

/-- The `while` loop inside the `//`-comment arm of
`Scanner::skip_whitespace` (scanner.rs lines 227-229). -/
def skipLineCommentLoop : Nat → Scanner → Option Scanner
| 0, s => some s
| fuel + 1, s =>
  match s.peek with
  | none => none
  | some c =>
    if c ≠ Char.ofNat 10 ∧ ¬ s.is_at_end then
      match s.advance with
      | none => none
      | some (_, s1) => skipLineCommentLoop fuel s1
    else some s

/-- Wrapper supplying the fuel for `skipLineCommentLoop`. -/
def skipLineComment (s : Scanner) : Option Scanner :=
skipLineCommentLoop (strLen s.source - s.current) s

/-- The `while` loop of `Scanner::multi_line_comment` (scanner.rs lines
244-257), carrying `comment_nest_depth`. -/
def multiLineCommentLoop : Nat → Scanner → Nat → Option (Scanner × Nat)
| 0, s, depth => some (s, depth)
| fuel + 1, s, depth =>
  if depth > 0 ∧ ¬ s.is_at_end then
    match s.peek, s.peek_next with
    | some c1, some c2 =>
      let depth1 := if c1 = '/' ∧ c2 = '*' then depth + 1 else depth
      let depth2 := if c1 = '*' ∧ c2 = '/' then depth1 - 1 else depth1
      let s1 := if c1 = Char.ofNat 10 then { s with line := s.line + 1 } else s
      match s1.advance with
      | none => none
      | some (_, s2) => multiLineCommentLoop fuel s2 depth2
    | _, _ => none
  else some (s, depth)

/-- `Scanner::multi_line_comment`: the loop above, then the two
unconditional `advance()` calls for the closing `*/` (which panic past the
end of input). -/
def multi_line_comment (s : Scanner) : Option Scanner :=
match multiLineCommentLoop (strLen s.source - s.current) s 1 with
| none => none
| some (s1, _) =>
  match s1.advance with
  | none => none
  | some (_, s2) =>
    match s2.advance with
    | none => none
    | some (_, s3) => some s3

/-- The `loop` of `Scanner::skip_whitespace` (scanner.rs lines 214-239).
Note that in the `/` arm the block-comment test is `self.matches('*')`
while `current` still points at the first `/`, so it compares `/` with
`*`: it can never succeed, and control falls to `break`. -/
def skipWhitespaceLoop : Nat → Scanner → Option Scanner
| 0, s => some s
| fuel + 1, s =>
  match s.peek with
  | none => none
  | some c =>
    if c = ' ' ∨ c = Char.ofNat 13 ∨ c = Char.ofNat 9 then
      match s.advance with
      | none => none
      | some (_, s1) => skipWhitespaceLoop fuel s1
    else if c = Char.ofNat 10 then
      match Scanner.advance { s with line := s.line + 1 } with
      | none => none
      | some (_, s1) => skipWhitespaceLoop fuel s1
    else if c = '/' then
      match s.peek_next with
      | none => none
      | some c2 =>
        if c2 = '/' then
          match skipLineComment s with
          | none => none
          | some s1 => skipWhitespaceLoop fuel s1
        else
          match s.matches '*' with
          | none => none
          | some (b, s1) =>
            if b then
              match multi_line_comment s1 with
              | none => none
              | some s2 => skipWhitespaceLoop fuel s2
            else some s1
    else some s

/-- `Scanner::skip_whitespace`. -/
def skip_whitespace (s : Scanner) : Option Scanner :=
skipWhitespaceLoop (strLen s.source - s.current) s

/-- `Scanner::check_keyword`: the length test, then (only if it passes,
mirroring `&&`) the comparison of the whole lexeme slice
`&source[start..current]` against `rest`. -/
def check_keyword (s : Scanner) (start length : Nat) (rest : List Char)
    (t : TokenType) : Option TokenType :=
if s.current - s.start = start + length then
  match byteSlice s.source s.start s.current with
  | none => none
  | some sl => some (if sl = rest then t else TokenType.Identifier)
else some TokenType.Identifier

/-- `Scanner::identifier_type` (scanner.rs lines 279-319): dispatches on
`self.peek()` — the character *after* the just-scanned lexeme — and in the
`f`/`t` arms on `self.peek_next()`. -/
def identifier_type (s : Scanner) : Option TokenType :=
match s.peek with
| none => none
| some c =>
  match c with
  | 'a' => check_keyword s 1 2 "nd".toList TokenType.And
  | 'c' => check_keyword s 1 4 "lass".toList TokenType.Class
  | 'e' => check_keyword s 1 3 "lse".toList TokenType.Else
  | 'f' =>
    if s.current - s.start > 1 then
      match s.peek_next with
      | none => none
      | some c2 =>
        match c2 with
        | 'a' => check_keyword s 2 3 "lse".toList TokenType.False
        | 'o' => check_keyword s 2 1 "r".toList TokenType.For
        | 'u' => check_keyword s 2 1 "n".toList TokenType.Fun
        | _ => some TokenType.Identifier
    else some TokenType.Error
  | 'i' => check_keyword s 1 1 "f".toList TokenType.If
  | 'n' => check_keyword s 1 2 "il".toList TokenType.Nil
  | 'o' => check_keyword s 1 1 "r".toList TokenType.Or
  | 'p' => check_keyword s 1 4 "rint".toList TokenType.Print
  | 'r' => check_keyword s 1 5 "eturn".toList TokenType.Return
  | 's' => check_keyword s 1 4 "uper".toList TokenType.Super
  | 't' =>
    if s.current - s.start > 1 then
      match s.peek_next with
      | none => none
      | some c2 =>
        match c2 with
        | 'h' => check_keyword s 2 2 "is".toList TokenType.This
        | 'r' => check_keyword s 2 2 "ue".toList TokenType.True
        | _ => some TokenType.Identifier
    else some TokenType.Error
  | _ => some TokenType.Identifier

/-- The `while` loop of `Scanner::identifier`. -/
def identifierLoop : Nat → Scanner → Option Scanner
| 0, s => some s
| fuel + 1, s =>
  match s.peek with
  | none => none
  | some c =>
    if is_alpha c || c.isDigit then
      match s.advance with
      | none => none
      | some (_, s1) => identifierLoop fuel s1
    else some s

/-- `Scanner::identifier`. -/
def Scanner.identifier (s : Scanner) : Option (Token × Scanner) :=
match identifierLoop (strLen s.source - s.current) s with
| none => none
| some s1 =>
  match identifier_type s1 with
  | none => none
  | some t =>
    match s1.make_token t with
    | none => none
    | some tok => some (tok, s1)

/-- The digit-consuming `while` loops of `Scanner::number`. -/
def numberLoop : Nat → Scanner → Option Scanner
| 0, s => some s
| fuel + 1, s =>
  match s.peek with
  | none => none
  | some c =>
    if c.isDigit then
      match s.advance with
      | none => none
      | some (_, s1) => numberLoop fuel s1
    else some s

/-- `Scanner::number` (`&&` short-circuits: `peek_next` is only consulted
when `peek` returned `.`). -/
def Scanner.number (s : Scanner) : Option (Token × Scanner) :=
match numberLoop (strLen s.source - s.current) s with
| none => none
| some s1 =>
  match s1.peek with
  | none => none
  | some c =>
    if c = '.' then
      match s1.peek_next with
      | none => none
      | some c2 =>
        if c2.isDigit then
          match s1.advance with
          | none => none
          | some (_, s2) =>
            match numberLoop (strLen s2.source - s2.current) s2 with
            | none => none
            | some s3 =>
              match s3.make_token TokenType.Number with
              | none => none
              | some tok => some (tok, s3)
        else
          match s1.make_token TokenType.Number with
          | none => none
          | some tok => some (tok, s1)
    else
      match s1.make_token TokenType.Number with
      | none => none
      | some tok => some (tok, s1)

/-- The `while` loop of `Scanner::string`. -/
def stringLoop : Nat → Scanner → Option Scanner
| 0, s => some s
| fuel + 1, s =>
  match s.peek with
  | none => none
  | some c =>
    if c ≠ '"' ∧ ¬ s.is_at_end then
      let s1 := if c = Char.ofNat 10 then { s with line := s.line + 1 } else s
      match s1.advance with
      | none => none
      | some (_, s2) => stringLoop fuel s2
    else some s

/-- `Scanner::string`. -/
def Scanner.string (s : Scanner) : Option (Token × Scanner) :=
match stringLoop (strLen s.source - s.current) s with
| none => none
| some s1 =>
  if s1.is_at_end then some (s1.error_token "Unterminated string.".toList, s1)
  else
    match s1.advance with
    | none => none
    | some (_, s2) =>
      match s2.make_token TokenType.String with
      | none => none
      | some tok => some (tok, s2)

/-- `Scanner::scan_token` (scanner.rs lines 95-158). -/
def scan_token (s0 : Scanner) : Option (Token × Scanner) :=
match skip_whitespace s0 with
| none => none
| some s1 =>
let s := { s1 with start := s1.current }
if s.is_at_end then
  match s.make_token TokenType.Eof with
  | none => none
  | some tok => some (tok, s)
else
  match s.advance with
  | none => none
  | some (c, s) =>
    if is_alpha c then s.identifier
    else if c.isDigit then s.number
    else
      match c with
      | '(' => (s.make_token TokenType.LeftParen).map (fun t => (t, s))
      | ')' => (s.make_token TokenType.RightParen).map (fun t => (t, s))
      | '{' => (s.make_token TokenType.LeftBrace).map (fun t => (t, s))
      | '}' => (s.make_token TokenType.RightBrace).map (fun t => (t, s))
      | ';' => (s.make_token TokenType.Semicolon).map (fun t => (t, s))
      | ',' => (s.make_token TokenType.Comma).map (fun t => (t, s))
      | '.' => (s.make_token TokenType.Dot).map (fun t => (t, s))
      | '-' => (s.make_token TokenType.Minus).map (fun t => (t, s))
      | '+' => (s.make_token TokenType.Plus).map (fun t => (t, s))
      | '/' => (s.make_token TokenType.Slash).map (fun t => (t, s))
      | '*' => (s.make_token TokenType.Star).map (fun t => (t, s))
      | '!' =>
        (s.matches '=').bind fun p =>
          (p.2.make_token (if p.1 then TokenType.BangEqual else TokenType.Bang)).map
            (fun t => (t, p.2))
      | '=' =>
        (s.matches '=').bind fun p =>
          (p.2.make_token (if p.1 then TokenType.EqualEqual else TokenType.Equal)).map
            (fun t => (t, p.2))
      | '<' =>
        (s.matches '=').bind fun p =>
          (p.2.make_token (if p.1 then TokenType.LessEqual else TokenType.Less)).map
            (fun t => (t, p.2))
      | '>' =>
        (s.matches '=').bind fun p =>
          (p.2.make_token (if p.1 then TokenType.GreaterEqual else TokenType.Greater)).map
            (fun t => (t, p.2))
      | '"' => s.string
      | _ => some (s.error_token "Unexpected character.".toList, s)

/-!
## Theorems
-/

/-- Popping the top of a stack whose top is explicit. -/
lemma popV_append (st : List Value) (v : Value) : popV (st ++ [v]) = some (v, st) := by
simp [popV]

/-- Popping a stack whose top two values are explicit. -/
lemma popV_pair (st : List Value) (a b : Value) :
    popV (st ++ [a, b]) = some (b, st ++ [a]) := by
rw [show st ++ [a, b] = (st ++ [a]) ++ [b] by simp, popV_append]

/-- **C2.** The claim states that SetLocal with operand `s` in a frame with
slot base `b` writes the stack top into index `b + s`. It does not: the
`OpCode::SetLocal` arm indexes the stack with the bare operand
(`self.stack[slot] = value`), ignoring the frame base. Concretely, in a
frame with slot base 1 and operand 0 on the stack `[nil, false, true]`,
the write lands on absolute index 0, while the frame-relative target
index 1 keeps its old value `false` (the top being `true`); nothing is
popped. -/
theorem c2_setLocal_ignores_frame_base :
    setLocalStep [Value.nil, Value.bool false, Value.bool true] 0 =
      some [Value.bool true, Value.bool false, Value.bool true] ∧
    [Value.bool true, Value.bool false, Value.bool true].get? (1 + 0) =
      some (Value.bool false) ∧
    Value.bool false ≠ Value.bool true := by
refine ⟨by decide, by decide, by decide⟩

/-- **C3.** The claim states that a native call with `N` arguments invokes
the host callable with the slice of the top `N` stack values and replaces
the callee and its `N` arguments by the returned value. The
`Obj::NativeFunction` branch instead passes the one-element slice
`&[self.peek(arg_count)]` — which holds the *callee* — and truncates the
stack to `len - arg_count + 1` before pushing. With the callable that
returns its slice length as a Number, the callee object at id 7 and two
arguments, the result records an argument slice of length 1 (not 2), and
the callee and first argument survive on the stack, so the final stack is
not the claimed `[result]`. -/
theorem c3_nativeCall_passes_callee_and_overtruncates :
    nativeCallStep (fun _ args => Value.number (F64.fin args.length))
        [Value.obj (Obj.nativeFunction 7), Value.bool true, Value.bool false] 2 =
      some [Value.obj (Obj.nativeFunction 7), Value.bool true,
        Value.number (F64.fin 1)] ∧
    (some [Value.obj (Obj.nativeFunction 7), Value.bool true,
        Value.number (F64.fin 1)] : Option (List Value)) ≠
      some [Value.number (F64.fin 2)] := by
refine ⟨by decide, by decide⟩

/-- **C4.** Pop order and the successful numeric path of `binary_op!` are
as claimed: `b` is popped first, then `a`, and two Numbers push the
result. The error path is not: on non-numeric operands the macro returns
`InterpretResult::RuntimeError` directly, so no "Operands must be
numbers." message is printed (`printed = none`) and the stacks are not
cleared (below, a value is left on the stack) — unlike `runtime_error!`,
which the Add and Negate arms do invoke. -/
theorem c4_binary_op_error_is_silent :
    (∀ (f : F64 → F64 → Value) (st : List Value) (a b : F64),
        binary_op f (st ++ [Value.number a, Value.number b]) =
          some (BinResult.next (st ++ [f a b]))) ∧
    subtractStep [Value.number (F64.fin 1), Value.bool true, Value.nil] =
      some (BinResult.runtimeError none [Value.number (F64.fin 1)]) ∧
    multiplyStep [Value.number (F64.fin 1), Value.bool true, Value.nil] =
      some (BinResult.runtimeError none [Value.number (F64.fin 1)]) ∧
    divideStep [Value.number (F64.fin 1), Value.bool true, Value.nil] =
      some (BinResult.runtimeError none [Value.number (F64.fin 1)]) ∧
    greaterStep [Value.number (F64.fin 1), Value.bool true, Value.nil] =
      some (BinResult.runtimeError none [Value.number (F64.fin 1)]) ∧
    lessStep [Value.number (F64.fin 1), Value.bool true, Value.nil] =
      some (BinResult.runtimeError none [Value.number (F64.fin 1)]) := by
refine ⟨?_, by decide, by decide, by decide, by decide, by decide⟩
intro f st a b
simp [binary_op, popV_pair, popV_append]

/-- **C7.** The claim states that after a syntax error the parser
synchronizes by *advancing* to the next `;` or statement-starting token.
But the `self.advance()` call in `Parser::synchronize` sits after the
`while` loop, whose body mutates nothing, so whenever the loop is entered
with `current` neither Eof nor a statement start and `previous` not a
semicolon — e.g. compiling the source `1 1`, which reaches `synchronize`
with `previous = current = Number` — the loop never terminates, however
many iterations it is granted, and `compile` diverges. -/
theorem c7_synchronize_never_advances :
    ∀ fuel : Nat, synchronizeLoop fuel TokenType.Number TokenType.Number = none := by
intro fuel
induction fuel with
| zero => rfl
| succ n ih => simpa [synchronizeLoop, isSyncStart] using ih

/-- **C9.** Value equality is the derived structural equality except that
Numbers compare by the `f64` comparison, under which NaN is unequal to
itself: `Number(NaN) == Number(NaN)` is false, and the Equal opcode
arm therefore pushes `false` when comparing a NaN value to itself, while
equality on Nil, Bool and String values is reflexive. -/
theorem c9_nan_not_reflexive :
    valueEq (Value.number F64.nan) (Value.number F64.nan) = false ∧
    equalStep [Value.number F64.nan, Value.number F64.nan] =
      some [Value.bool false] ∧
    (∀ st a b, equalStep (st ++ [a, b]) = some (st ++ [Value.bool (valueEq a b)])) ∧
    valueEq Value.nil Value.nil = true ∧
    (∀ b : Bool, valueEq (Value.bool b) (Value.bool b) = true) ∧
    (∀ s : StringObj, valueEq (Value.obj (Obj.string s)) (Value.obj (Obj.string s)) = true) := by
refine ⟨by decide, by decide, ?_, by decide, ?_, ?_⟩
· intro st a b
  simp [equalStep, popV_pair, popV_append]
· intro b
  simp [valueEq]
· intro s
  simp [valueEq, objEq]

/-- The previous value returned by `gInsert` is the lookup of the key. -/
lemma gInsert_snd (g : Gtable) (k : StringObj) (v : Value) :
    (gInsert g k v).2 = gLookup g k := by
induction g with
| nil => rfl
| cons p rest ih =>
  obtain ⟨k0, v0⟩ := p
  by_cases h : k0 = k <;> simp [gInsert, gLookup, h, ih]

/-- After `gInsert`, the key maps to the inserted value. -/
lemma gLookup_gInsert (g : Gtable) (k : StringObj) (v : Value) :
    gLookup (gInsert g k v).1 k = some v := by
induction g with
| nil => simp [gInsert, gLookup]
| cons p rest ih =>
  obtain ⟨k0, v0⟩ := p
  by_cases h : k0 = k <;> simp [gInsert, gLookup, h, ih]

/-- After `gRemove`, the key is absent. -/
lemma gLookup_gRemove (g : Gtable) (k : StringObj) :
    gLookup (gRemove g k) k = none := by
induction g with
| nil => rfl
| cons p rest ih =>
  obtain ⟨k0, v0⟩ := p
  by_cases h : k0 = k <;> simp [gRemove, List.filter, h, gLookup, ih] at ih ⊢

/-- **C5.** The `OpCode::SetGlobal` arm first inserts, and when the insert
reports that the key was new it removes the freshly inserted binding again
before reporting the runtime error "Undefined variable 'X'." — so after a
failed assignment the globals table does not contain the name (no ghost
binding leaks, and `runtime_error!` has cleared the value stack). When the
name is present, its value is replaced by the stack top and the assigned
value stays on the stack (the arm reads it with `peek(0)` and never
pops). -/
theorem c5_setGlobal_no_ghost_binding :
    ∀ (g : Gtable) (name : StringObj) (st : List Value) (v : Value),
      peekV st 0 = some v →
      (gLookup g name = none →
        ∃ g2, setGlobalStep g name st =
            some (BinResult.runtimeError (some (undefinedVarMsg name)) [], g2) ∧
          gLookup g2 name = none) ∧
      (∀ v0, gLookup g name = some v0 →
        ∃ g2, setGlobalStep g name st = some (BinResult.next st, g2) ∧
          gLookup g2 name = some v) := by
intro g name st v hpk
constructor
· intro habs
  refine ⟨gRemove (gInsert g name v).1 name, ?_, gLookup_gRemove _ _⟩
  simp [setGlobalStep, hpk, gInsert_snd, habs]
· intro v0 hpres
  refine ⟨(gInsert g name v).1, ?_, gLookup_gInsert _ _ _⟩
  simp [setGlobalStep, hpk, gInsert_snd, hpres]

/-- Witness for C5 at concrete inputs: assigning to `x` over an empty
globals table errors and leaves no binding; assigning over a table that
binds `x` replaces the value. -/
theorem c5_setGlobal_no_ghost_binding_witness :
    (∃ g2, setGlobalStep [] (StringObj.new "x".toList) [Value.bool true] =
        some (BinResult.runtimeError
          (some (undefinedVarMsg (StringObj.new "x".toList))) [], g2) ∧
      gLookup g2 (StringObj.new "x".toList) = none) ∧
    (∃ g2, setGlobalStep [(StringObj.new "x".toList, Value.nil)]
          (StringObj.new "x".toList) [Value.bool true] =
        some (BinResult.next [Value.bool true], g2) ∧
      gLookup g2 (StringObj.new "x".toList) = some (Value.bool true)) :=
⟨(c5_setGlobal_no_ghost_binding [] (StringObj.new "x".toList) [Value.bool true]
    (Value.bool true) (by decide)).1 (by decide),
 (c5_setGlobal_no_ghost_binding [(StringObj.new "x".toList, Value.nil)]
    (StringObj.new "x".toList) [Value.bool true]
    (Value.bool true) (by decide)).2 Value.nil (by decide)⟩

/-- **C10.** `clock_native` ignores its `arg_count` and `args` parameters
(no arity check) and, for every reading of the system clock — including
the `Err` case of a clock before the Unix epoch, which `unwrap_or` maps to
a zero duration — returns a Number value that is at least 0. -/
theorem c10_clock_native_total_nonneg :
    ∀ (now : Option Nat) (argCount : Nat) (args : List Value),
      (∃ q : ℚ, clock_native now argCount args = Value.number (F64.fin q) ∧ 0 ≤ q) ∧
      (∀ (argCount2 : Nat) (args2 : List Value),
        clock_native now argCount args = clock_native now argCount2 args2) := by
intro now argCount args
refine ⟨⟨(now.getD 0 : Nat), rfl, by positivity⟩, fun _ _ => rfl⟩

/-- The per-offset expansion of the run-length line table: each run
`(number, count)` contributes `count` copies of `number`. -/
def flattenLines (ls : List LineNumber) : List Nat :=
(ls.map fun l => List.replicate l.count l.number).flatten

/-- A list decomposes as its `dropLast` followed by its last element. -/
lemma getLast?_decomp {α : Type} : ∀ (ls : List α) (a : α),
    ls.getLast? = some a → ls = ls.dropLast ++ [a] := by
intro ls
induction ls with
| nil => intro a h; cases h
| cons x xs ih =>
  intro a h
  cases xs with
  | nil => simp_all
  | cons y ys =>
    rw [List.getLast?_cons_cons] at h
    have := ih a h
    simpa [List.dropLast_cons_of_ne_nil] using this

/-- `Chunk::write` appends exactly one entry to the expanded line table. -/
lemma flattenLines_write (c : Chunk) (byte line : Nat) :
    flattenLines (c.write byte line).lines = flattenLines c.lines ++ [line] := by
unfold Chunk.write
cases h : c.lines.getLast? with
| none =>
  simp [List.getLast?_eq_none_iff.mp h, flattenLines]
| some lastLine =>
  have hdec := getLast?_decomp c.lines lastLine h
  by_cases he : lastLine.number = line
  · simp only [he, if_true]
    conv_rhs => rw [hdec]
    simp [flattenLines, List.replicate_succ']
    rw [← he]
    simp [List.replicate_succ']
  · simp [he, flattenLines]



/-- The expanded line table of a chunk built by a fold of writes. -/
lemma flattenLines_foldl (ws : List (Nat × Nat)) : ∀ (c : Chunk),
    flattenLines ((ws.foldl (fun c p => c.write p.1 p.2) c).lines) =
      flattenLines c.lines ++ ws.map Prod.snd := by
induction ws with
| nil => intro c; simp
| cons w rest ih =>
  intro c
  simp only [List.foldl_cons, List.map_cons]
  rw [ih, flattenLines_write]
  simp

/-- Once `current_position` has passed `index`, the loop returns the
accumulated line number. -/
lemma getLineGo_stop (index : Nat) : ∀ (ls : List LineNumber) (n cp : Nat),
    index < cp → getLineGo index ls n cp = n := by
intro ls n cp h
cases ls with
| nil => rfl
| cons l rest => simp [getLineGo, h]

/-- The loop of `get_line` reads off the expanded line table. -/
lemma getLineGo_spec (index : Nat) : ∀ (ls : List LineNumber) (n cp : Nat),
    cp ≤ index → index - cp < (flattenLines ls).length →
    getLineGo index ls n cp = (flattenLines ls).getD (index - cp) 0 := by
intro ls
induction ls with
| nil => intro n cp h1 h2; simp [flattenLines] at h2
| cons l rest ih =>
  intro n cp h1 h2
  have hnot : ¬ cp > index := by omega
  rw [getLineGo]
  simp only [hnot, if_false]
  have hflat : flattenLines (l :: rest) =
      List.replicate l.count l.number ++ flattenLines rest := by
    simp [flattenLines]
  by_cases hlt : index - cp < l.count
  · rw [getLineGo_stop index rest l.number (cp + l.count) (by omega)]
    have hrl : (List.replicate l.count l.number ++ flattenLines rest)[index - cp]? =
        some l.number := by
      rw [List.getElem?_append_left (by simpa using hlt)]
      simp [List.getElem?_replicate, hlt]
    simp [hflat, List.getD, hrl]
  · rw [hflat] at h2 ⊢
    simp only [List.length_append, List.length_replicate] at h2
    rw [ih l.number (cp + l.count) (by omega) (by omega)]
    have hrr : (List.replicate l.count l.number ++ flattenLines rest)[index - cp]? =
        (flattenLines rest)[index - (cp + l.count)]? := by
      rw [List.getElem?_append_right (by simpa using hlt)]
      simp only [List.length_replicate]
      congr 1
      omega
    simp [List.getD, hrr]



/-- **C8.** For every sequence of `Chunk::write(byte_k, line_k)` calls and
every offset `i` below the number of writes, `get_line(i)` returns
`line_i`; and a write whose line equals the last run's line number extends
that run's count by 1 instead of appending a new run (the run list keeps
its length and its last run becomes `(line, count + 1)`). -/
theorem c8_get_line_of_writes :
    (∀ (ws : List (Nat × Nat)) (i : Nat), i < ws.length →
      (chunkOfWrites ws).get_line i = (ws.getD i (0, 0)).2) ∧
    (∀ (c : Chunk) (byte l cnt : Nat),
      c.lines.getLast? = some ⟨l, cnt⟩ →
      (c.write byte l).lines.length = c.lines.length ∧
      (c.write byte l).lines.getLast? = some ⟨l, cnt + 1⟩) := by
constructor
· intro ws i h
  have hflat : flattenLines (chunkOfWrites ws).lines = ws.map Prod.snd := by
    simpa [chunkOfWrites, flattenLines] using flattenLines_foldl ws ⟨[], []⟩
  rw [Chunk.get_line, getLineGo_spec i _ 0 0 (by omega)
    (by rw [hflat]; simpa using h)]
  rw [hflat]
  simp [List.getD, List.getElem?_map, List.getElem?_eq_getElem (by simpa using h)]
· intro c byte l cnt h
  have hdec := getLast?_decomp c.lines ⟨l, cnt⟩ h
  have hw : (c.write byte l).lines = c.lines.dropLast ++ [⟨l, cnt + 1⟩] := by
    simp [Chunk.write, h]
  constructor
  · rw [hw]
    conv_rhs => rw [hdec]
    simp
  · rw [hw]
    simp

/-- Witness for C8: three writes, the first two on line 7 (one run of
count 2), the third on line 8; `get_line 1` returns 7, and the second
write extended the first run. -/
theorem c8_get_line_of_writes_witness :
    (chunkOfWrites [(1, 7), (2, 7), (3, 8)]).get_line 1 =
      (([(1, 7), (2, 7), (3, 8)] : List (Nat × Nat)).getD 1 (0, 0)).2 ∧
    ((Chunk.mk [1] [⟨7, 1⟩]).write 2 7).lines.length =
      ([⟨7, 1⟩] : List LineNumber).length ∧
    ((Chunk.mk [1] [⟨7, 1⟩]).write 2 7).lines.getLast? = some ⟨7, 1 + 1⟩ :=
⟨c8_get_line_of_writes.1 [(1, 7), (2, 7), (3, 8)] 1 (by decide),
 c8_get_line_of_writes.2 (Chunk.mk [1] [⟨7, 1⟩]) 2 7 1 (by decide)⟩

/-- The source texts for which the scanner's byte/character index mixing
is harmless: every character is a single UTF-8 byte (ASCII). -/
def AsciiSrc (src : List Char) : Prop := ∀ c ∈ src, c.utf8Size = 1

/-- For an ASCII source the byte length equals the character count. -/
lemma strLen_ascii : ∀ {src : List Char}, AsciiSrc src → strLen src = src.length := by
intro src h
induction src with
| nil => rfl
| cons c cs ih =>
  have hc : c.utf8Size = 1 := h c (by simp)
  have hcs : AsciiSrc cs := fun d hd => h d (by simp [hd])
  have := ih hcs
  simp [strLen, hc] at this ⊢
  omega

/-- When the scanner is not at the end, a successful `peek` pins down
`advance`. -/
lemma advance_of_peek {s : Scanner} {c : Char} (hend : s.is_at_end = false)
    (hp : s.peek = some c) :
    s.advance = some (c, { s with current := s.current + 1 }) := by
rw [Scanner.peek, hend] at hp
rw [if_neg (show ¬(false = true) by simp)] at hp
rw [Scanner.advance, hp]

/-- A scanner that is not at the end of an ASCII source has its character
index in range. -/
lemma current_lt_ascii {s : Scanner} (hA : AsciiSrc s.source)
    (hend : s.is_at_end = false) : s.current < s.source.length := by
have h1 : ¬ strLen s.source ≤ s.current := by
  simpa [Scanner.is_at_end] using hend
rw [strLen_ascii hA] at h1
omega

/-- On an ASCII source `peek` never panics. -/
lemma peek_ascii {s : Scanner} (hA : AsciiSrc s.source) : ∃ c, s.peek = some c := by
by_cases hend : s.is_at_end
· exact ⟨Char.ofNat 0, by simp [Scanner.peek, hend]⟩
· have hend' : s.is_at_end = false := by simpa using hend
  have hlt := current_lt_ascii hA hend'
  refine ⟨s.source.get ⟨s.current, hlt⟩, ?_⟩
  simp [Scanner.peek, hend', List.get?_eq_getElem?, List.getElem?_eq_getElem hlt]

/-- On an ASCII source `peek_next` never panics. -/
lemma peek_next_ascii {s : Scanner} (hA : AsciiSrc s.source) :
    ∃ c, s.peek_next = some c := by
rw [Scanner.peek_next]
by_cases hend : strLen s.source ≤ s.current + 1
· exact ⟨Char.ofNat 0, by simp [hend]⟩
· have hlt : s.current + 1 < s.source.length := by
    rw [strLen_ascii hA] at hend
    omega
  refine ⟨s.source.get ⟨s.current + 1, hlt⟩, ?_⟩
  simp [hend, List.get?_eq_getElem?, List.getElem?_eq_getElem hlt]

/-- If `peek` yields something other than NUL, the scanner is not at the
end. -/
lemma not_at_end_of_peek {s : Scanner} {c : Char} (hp : s.peek = some c)
    (hc : c ≠ Char.ofNat 0) : s.is_at_end = false := by
by_cases hend : s.is_at_end
· rw [Scanner.peek, hend] at hp
  simp at hp
  exact absurd hp.symm hc
· simpa using hend



/-- What each scanner-internal loop guarantees about its result state:
source and token start are untouched, and the cursor only moves forward,
staying within the source. -/
def Progress (s s1 : Scanner) : Prop :=
s1.source = s.source ∧ s1.start = s.start ∧ s.current ≤ s1.current ∧
  s1.current ≤ s.source.length

lemma Progress.refl_of (s : Scanner) (h : s.current ≤ s.source.length) :
    Progress s s := ⟨rfl, rfl, le_refl _, h⟩

lemma Progress.trans {s s1 s2 : Scanner} (h1 : Progress s s1)
    (h2 : Progress s1 s2) : Progress s s2 := by
obtain ⟨a1, b1, c1, d1⟩ := h1
obtain ⟨a2, b2, c2, d2⟩ := h2
exact ⟨a2.trans a1, b2.trans b1, c1.trans c2, by rw [← a1]; exact d2⟩

/-- Byte slicing succeeds on an ASCII source for in-range indices. -/
lemma byteSlice_ascii : ∀ (src : List Char), AsciiSrc src → ∀ (a b : Nat),
    a ≤ b → b ≤ src.length → ∃ l, byteSlice src a b = some l := by
intro src
induction src with
| nil =>
  intro _ a b hab hb
  simp at hb
  subst hb
  have ha : a = 0 := by omega
  subst ha
  exact ⟨[], rfl⟩
| cons c cs ih =>
  intro hA a b hab hb
  have hc : c.utf8Size = 1 := hA c (by simp)
  have hcs : AsciiSrc cs := fun d hd => hA d (by simp [hd])
  cases a with
  | zero =>
    cases b with
    | zero => exact ⟨[], rfl⟩
    | succ b0 =>
      obtain ⟨l, hl⟩ := ih hcs 0 b0 (by omega) (by simpa using hb)
      refine ⟨c :: l, ?_⟩
      simp [byteSlice, hc, hl]
  | succ a0 =>
    cases b with
    | zero => omega
    | succ b0 =>
      obtain ⟨l, hl⟩ := ih hcs a0 b0 (by omega) (by simpa using hb)
      refine ⟨l, ?_⟩
      simp [byteSlice, hc, hl, Nat.succ_le_succ_iff.mp hab]

/-- `make_token` succeeds on an ASCII source when `start ≤ current ≤ len`. -/
lemma make_token_ascii {s : Scanner} (hA : AsciiSrc s.source) (t : TokenType)
    (h1 : s.start ≤ s.current) (h2 : s.current ≤ s.source.length) :
    ∃ tok, s.make_token t = some tok := by
obtain ⟨l, hl⟩ := byteSlice_ascii s.source hA s.start s.current h1 h2
exact ⟨⟨t, l, s.line⟩, by rw [Scanner.make_token, hl]⟩

/-- `matches` neither panics nor escapes the source on an ASCII source. -/
lemma matches_ascii {s : Scanner} (hA : AsciiSrc s.source) (e : Char)
    (hcur : s.current ≤ s.source.length) :
    ∃ b s1, s.matches e = some (b, s1) ∧ Progress s s1 ∧ s1.line = s.line := by
rw [Scanner.matches]
by_cases hend : s.is_at_end
· exact ⟨false, s, by simp [hend], Progress.refl_of s hcur, rfl⟩
· have hend' : s.is_at_end = false := by simpa using hend
  have hlt := current_lt_ascii hA hend'
  obtain ⟨c, hp⟩ := peek_ascii hA
  rw [hend', if_neg (show ¬(false = true) by simp), hp]
  by_cases hc : c ≠ e
  · exact ⟨false, s, by simp [hc], Progress.refl_of s hcur, rfl⟩
  · refine ⟨true, { s with current := s.current + 1 }, by simp [hc], ?_, rfl⟩
    exact ⟨rfl, rfl, by show s.current ≤ s.current + 1; omega,
      by show s.current + 1 ≤ s.source.length; omega⟩

/-- In the block-comment test of `skip_whitespace`, `matches('*')` is
called while `peek` still yields the first `/`, so it always fails. -/
lemma matches_star_of_peek_slash {s : Scanner} (hp : s.peek = some '/') :
    s.matches '*' = some (false, s) := by
have hend := not_at_end_of_peek hp (by decide)
rw [Scanner.matches, hend, if_neg (show ¬(false = true) by simp), hp]
simp



lemma skipLineCommentLoop_ascii : ∀ (fuel : Nat) (s : Scanner),
    AsciiSrc s.source → s.current ≤ s.source.length →
    ∃ s1, skipLineCommentLoop fuel s = some s1 ∧ Progress s s1 := by
intro fuel
induction fuel with
| zero => intro s hA hcur; exact ⟨s, rfl, Progress.refl_of s hcur⟩
| succ n ih =>
  intro s hA hcur
  obtain ⟨c, hp⟩ := peek_ascii hA
  simp only [skipLineCommentLoop, hp]
  by_cases hcond : c ≠ Char.ofNat 10 ∧ ¬ s.is_at_end
  · rw [if_pos hcond]
    have hend : s.is_at_end = false := by simpa using hcond.2
    rw [advance_of_peek hend hp]
    have hlt := current_lt_ascii hA hend
    have hstep : Progress s { s with current := s.current + 1 } :=
      ⟨rfl, rfl, by show s.current ≤ s.current + 1; omega, by show s.current + 1 ≤ s.source.length; exact hlt⟩
    obtain ⟨s1, h1, hpr⟩ := ih { s with current := s.current + 1 } hA
      (by show s.current + 1 ≤ s.source.length; exact hlt)
    exact ⟨s1, h1, hstep.trans hpr⟩
  · rw [if_neg hcond]
    exact ⟨s, rfl, Progress.refl_of s hcur⟩

lemma identifierLoop_ascii : ∀ (fuel : Nat) (s : Scanner),
    AsciiSrc s.source → s.current ≤ s.source.length →
    ∃ s1, identifierLoop fuel s = some s1 ∧ Progress s s1 := by
intro fuel
induction fuel with
| zero => intro s hA hcur; exact ⟨s, rfl, Progress.refl_of s hcur⟩
| succ n ih =>
  intro s hA hcur
  obtain ⟨c, hp⟩ := peek_ascii hA
  simp only [identifierLoop, hp]
  by_cases hcond : (is_alpha c || c.isDigit) = true
  · rw [if_pos hcond]
    have hcnul : c ≠ Char.ofNat 0 := by
      intro h
      rw [h] at hcond
      exact absurd hcond (by decide)
    have hend := not_at_end_of_peek hp hcnul
    rw [advance_of_peek hend hp]
    have hlt := current_lt_ascii hA hend
    have hstep : Progress s { s with current := s.current + 1 } :=
      ⟨rfl, rfl, by show s.current ≤ s.current + 1; omega, by show s.current + 1 ≤ s.source.length; exact hlt⟩
    obtain ⟨s1, h1, hpr⟩ := ih { s with current := s.current + 1 } hA
      (by show s.current + 1 ≤ s.source.length; exact hlt)
    exact ⟨s1, h1, hstep.trans hpr⟩
  · rw [if_neg hcond]
    exact ⟨s, rfl, Progress.refl_of s hcur⟩

lemma numberLoop_ascii : ∀ (fuel : Nat) (s : Scanner),
    AsciiSrc s.source → s.current ≤ s.source.length →
    ∃ s1, numberLoop fuel s = some s1 ∧ Progress s s1 := by
intro fuel
induction fuel with
| zero => intro s hA hcur; exact ⟨s, rfl, Progress.refl_of s hcur⟩
| succ n ih =>
  intro s hA hcur
  obtain ⟨c, hp⟩ := peek_ascii hA
  simp only [numberLoop, hp]
  by_cases hcond : c.isDigit = true
  · rw [if_pos hcond]
    have hcnul : c ≠ Char.ofNat 0 := by
      intro h
      rw [h] at hcond
      exact absurd hcond (by decide)
    have hend := not_at_end_of_peek hp hcnul
    rw [advance_of_peek hend hp]
    have hlt := current_lt_ascii hA hend
    have hstep : Progress s { s with current := s.current + 1 } :=
      ⟨rfl, rfl, by show s.current ≤ s.current + 1; omega, by show s.current + 1 ≤ s.source.length; exact hlt⟩
    obtain ⟨s1, h1, hpr⟩ := ih { s with current := s.current + 1 } hA
      (by show s.current + 1 ≤ s.source.length; exact hlt)
    exact ⟨s1, h1, hstep.trans hpr⟩
  · rw [if_neg hcond]
    exact ⟨s, rfl, Progress.refl_of s hcur⟩

lemma stringLoop_ascii : ∀ (fuel : Nat) (s : Scanner),
    AsciiSrc s.source → s.current ≤ s.source.length →
    ∃ s1, stringLoop fuel s = some s1 ∧ Progress s s1 := by
intro fuel
induction fuel with
| zero => intro s hA hcur; exact ⟨s, rfl, Progress.refl_of s hcur⟩
| succ n ih =>
  intro s hA hcur
  obtain ⟨c, hp⟩ := peek_ascii hA
  simp only [stringLoop, hp]
  by_cases hcond : c ≠ '"' ∧ ¬ s.is_at_end
  · rw [if_pos hcond]
    have hend : s.is_at_end = false := by simpa using hcond.2
    have hlt := current_lt_ascii hA hend
    by_cases hnl : c = Char.ofNat 10
    · rw [if_pos hnl]
      rw [advance_of_peek (s := { s with line := s.line + 1 }) hend hp]
      have hstep : Progress s { s with current := s.current + 1, line := s.line + 1 } :=
        ⟨rfl, rfl, by show s.current ≤ s.current + 1; omega, by show s.current + 1 ≤ s.source.length; exact hlt⟩
      obtain ⟨s1, h1, hpr⟩ :=
        ih { s with current := s.current + 1, line := s.line + 1 } hA
          (by show s.current + 1 ≤ s.source.length; exact hlt)
      exact ⟨s1, h1, hstep.trans hpr⟩
    · rw [if_neg hnl]
      rw [advance_of_peek hend hp]
      have hstep : Progress s { s with current := s.current + 1 } :=
        ⟨rfl, rfl, by show s.current ≤ s.current + 1; omega, by show s.current + 1 ≤ s.source.length; exact hlt⟩
      obtain ⟨s1, h1, hpr⟩ := ih { s with current := s.current + 1 } hA
        (by show s.current + 1 ≤ s.source.length; exact hlt)
      exact ⟨s1, h1, hstep.trans hpr⟩
  · rw [if_neg hcond]
    exact ⟨s, rfl, Progress.refl_of s hcur⟩



lemma skipWhitespaceLoop_ascii : ∀ (fuel : Nat) (s : Scanner),
    AsciiSrc s.source → s.current ≤ s.source.length →
    ∃ s1, skipWhitespaceLoop fuel s = some s1 ∧ Progress s s1 := by
intro fuel
induction fuel with
| zero => intro s hA hcur; exact ⟨s, rfl, Progress.refl_of s hcur⟩
| succ n ih =>
  intro s hA hcur
  obtain ⟨c, hp⟩ := peek_ascii hA
  simp only [skipWhitespaceLoop, hp]
  by_cases h1 : c = ' ' ∨ c = Char.ofNat 13 ∨ c = Char.ofNat 9
  · rw [if_pos h1]
    have hcnul : c ≠ Char.ofNat 0 := by
      rcases h1 with h | h | h <;> subst h <;> decide
    have hend := not_at_end_of_peek hp hcnul
    rw [advance_of_peek hend hp]
    have hlt := current_lt_ascii hA hend
    have hstep : Progress s { s with current := s.current + 1 } :=
      ⟨rfl, rfl, by show s.current ≤ s.current + 1; omega,
        by show s.current + 1 ≤ s.source.length; exact hlt⟩
    obtain ⟨s1, hh, hpr⟩ := ih { s with current := s.current + 1 } hA
      (by show s.current + 1 ≤ s.source.length; exact hlt)
    exact ⟨s1, hh, hstep.trans hpr⟩
  · rw [if_neg h1]
    by_cases h2 : c = Char.ofNat 10
    · rw [if_pos h2]
      have hcnul : c ≠ Char.ofNat 0 := by subst h2; decide
      have hend := not_at_end_of_peek hp hcnul
      rw [advance_of_peek (s := { s with line := s.line + 1 }) hend hp]
      have hlt := current_lt_ascii hA hend
      have hstep : Progress s { s with current := s.current + 1, line := s.line + 1 } :=
        ⟨rfl, rfl, by show s.current ≤ s.current + 1; omega,
          by show s.current + 1 ≤ s.source.length; exact hlt⟩
      obtain ⟨s1, hh, hpr⟩ :=
        ih { s with current := s.current + 1, line := s.line + 1 } hA
          (by show s.current + 1 ≤ s.source.length; exact hlt)
      exact ⟨s1, hh, hstep.trans hpr⟩
    · rw [if_neg h2]
      by_cases h3 : c = '/'
      · rw [if_pos h3]
        obtain ⟨c2, hpn⟩ := peek_next_ascii hA
        rw [hpn]
        dsimp only
        by_cases h4 : c2 = '/'
        · rw [if_pos h4]
          obtain ⟨sc, hsc, hprc⟩ :=
            skipLineCommentLoop_ascii (strLen s.source - s.current) s hA hcur
          have hsl : skipLineComment s = some sc := by
            rw [skipLineComment, hsc]
          rw [hsl]
          have hAc : AsciiSrc sc.source := by rw [hprc.1]; exact hA
          have hcc : sc.current ≤ sc.source.length := by
            rw [hprc.1]; exact hprc.2.2.2
          obtain ⟨s1, hh, hpr⟩ := ih sc hAc hcc
          exact ⟨s1, hh, hprc.trans hpr⟩
        · rw [if_neg h4]
          subst h3
          rw [matches_star_of_peek_slash hp]
          exact ⟨s, rfl, Progress.refl_of s hcur⟩
      · rw [if_neg h3]
        exact ⟨s, rfl, Progress.refl_of s hcur⟩

/-- `skip_whitespace` is safe on ASCII sources. -/
lemma skip_whitespace_ascii {s : Scanner} (hA : AsciiSrc s.source)
    (hcur : s.current ≤ s.source.length) :
    ∃ s1, skip_whitespace s = some s1 ∧ Progress s s1 := by
obtain ⟨s1, hh, hpr⟩ :=
  skipWhitespaceLoop_ascii (strLen s.source - s.current) s hA hcur
exact ⟨s1, by rw [skip_whitespace, hh], hpr⟩



lemma check_keyword_ascii {s : Scanner} (hA : AsciiSrc s.source)
    (h1 : s.start ≤ s.current) (h2 : s.current ≤ s.source.length)
    (a b : Nat) (rest : List Char) (t : TokenType) :
    ∃ t1, check_keyword s a b rest t = some t1 := by
rw [check_keyword]
by_cases hc : s.current - s.start = a + b
· rw [if_pos hc]
  obtain ⟨l, hl⟩ := byteSlice_ascii s.source hA s.start s.current h1 h2
  rw [hl]
  exact ⟨_, rfl⟩
· rw [if_neg hc]
  exact ⟨TokenType.Identifier, rfl⟩

lemma identifier_type_ascii {s : Scanner} (hA : AsciiSrc s.source)
    (h1 : s.start ≤ s.current) (h2 : s.current ≤ s.source.length) :
    ∃ t, identifier_type s = some t := by
obtain ⟨c, hp⟩ := peek_ascii hA
simp only [identifier_type, hp]
split
all_goals
  first
  | exact ⟨TokenType.Identifier, rfl⟩
  | exact check_keyword_ascii hA h1 h2 _ _ _ _
  | (by_cases hgt : s.current - s.start > 1
     · rw [if_pos hgt]
       obtain ⟨c2, hpn⟩ := peek_next_ascii hA
       rw [hpn]
       dsimp only
       split
       all_goals
         first
         | exact ⟨TokenType.Identifier, rfl⟩
         | exact check_keyword_ascii hA h1 h2 _ _ _ _
     · rw [if_neg hgt]
       exact ⟨TokenType.Error, rfl⟩)

lemma identifier_ascii {s : Scanner} (hA : AsciiSrc s.source)
    (h1 : s.start ≤ s.current) (h2 : s.current ≤ s.source.length) :
    ∃ tok s1, s.identifier = some (tok, s1) ∧ s1.source = s.source ∧
      s1.current ≤ s.source.length := by
obtain ⟨s1, hloop, hpr⟩ :=
  identifierLoop_ascii (strLen s.source - s.current) s hA h2
have hA1 : AsciiSrc s1.source := by rw [hpr.1]; exact hA
have h11 : s1.start ≤ s1.current := by
  rw [hpr.2.1]; exact h1.trans hpr.2.2.1
have h21 : s1.current ≤ s1.source.length := by rw [hpr.1]; exact hpr.2.2.2
obtain ⟨t, ht⟩ := identifier_type_ascii hA1 h11 h21
obtain ⟨tok, hmk⟩ := make_token_ascii hA1 t h11 h21
rw [Scanner.identifier, hloop]
dsimp only
rw [ht]
dsimp only
rw [hmk]
exact ⟨tok, s1, rfl, hpr.1, hpr.2.2.2⟩

lemma number_ascii {s : Scanner} (hA : AsciiSrc s.source)
    (h1 : s.start ≤ s.current) (h2 : s.current ≤ s.source.length) :
    ∃ tok s1, s.number = some (tok, s1) ∧ s1.source = s.source ∧
      s1.current ≤ s.source.length := by
obtain ⟨s1, hloop, hpr⟩ := numberLoop_ascii (strLen s.source - s.current) s hA h2
have hA1 : AsciiSrc s1.source := by rw [hpr.1]; exact hA
have h11 : s1.start ≤ s1.current := by
  rw [hpr.2.1]; exact h1.trans hpr.2.2.1
have h21 : s1.current ≤ s1.source.length := by rw [hpr.1]; exact hpr.2.2.2
obtain ⟨c, hp⟩ := peek_ascii hA1
rw [Scanner.number, hloop]
dsimp only
rw [hp]
dsimp only
by_cases hdot : c = '.'
· rw [if_pos hdot]
  obtain ⟨c2, hpn⟩ := peek_next_ascii hA1
  rw [hpn]
  dsimp only
  by_cases hdig : c2.isDigit = true
  · rw [if_pos hdig]
    have hend := not_at_end_of_peek hp (by rw [hdot]; decide)
    rw [advance_of_peek hend hp]
    dsimp only
    have hlt := current_lt_ascii hA1 hend
    obtain ⟨s3, hloop3, hpr3⟩ :=
      numberLoop_ascii (strLen s1.source - (s1.current + 1))
        { s1 with current := s1.current + 1 } hA1
        (by show s1.current + 1 ≤ s1.source.length; exact hlt)
    rw [hloop3]
    dsimp only
    have hA3 : AsciiSrc s3.source := by rw [hpr3.1]; exact hA1
    have h13 : s3.start ≤ s3.current := by
      rw [hpr3.2.1]
      exact h11.trans ((Nat.le_succ _).trans hpr3.2.2.1)
    have h23 : s3.current ≤ s3.source.length := by rw [hpr3.1]; exact hpr3.2.2.2
    obtain ⟨tok, hmk⟩ := make_token_ascii hA3 TokenType.Number h13 h23
    rw [hmk]
    refine ⟨tok, s3, rfl, ?_, ?_⟩
    · rw [hpr3.1]; exact hpr.1
    · have hb : s3.current ≤ s1.source.length := hpr3.2.2.2
      rw [hpr.1] at hb
      exact hb
  · rw [if_neg hdig]
    obtain ⟨tok, hmk⟩ := make_token_ascii hA1 TokenType.Number h11 h21
    rw [hmk]
    exact ⟨tok, s1, rfl, hpr.1, hpr.2.2.2⟩
· rw [if_neg hdot]
  obtain ⟨tok, hmk⟩ := make_token_ascii hA1 TokenType.Number h11 h21
  rw [hmk]
  exact ⟨tok, s1, rfl, hpr.1, hpr.2.2.2⟩

lemma string_ascii {s : Scanner} (hA : AsciiSrc s.source)
    (h1 : s.start ≤ s.current) (h2 : s.current ≤ s.source.length) :
    ∃ tok s1, s.string = some (tok, s1) ∧ s1.source = s.source ∧
      s1.current ≤ s.source.length := by
obtain ⟨s1, hloop, hpr⟩ := stringLoop_ascii (strLen s.source - s.current) s hA h2
have hA1 : AsciiSrc s1.source := by rw [hpr.1]; exact hA
have h11 : s1.start ≤ s1.current := by
  rw [hpr.2.1]; exact h1.trans hpr.2.2.1
have h21 : s1.current ≤ s1.source.length := by rw [hpr.1]; exact hpr.2.2.2
rw [Scanner.string, hloop]
dsimp only
by_cases hend : s1.is_at_end
· rw [if_pos hend]
  exact ⟨_, s1, rfl, hpr.1, hpr.2.2.2⟩
· have hend' : s1.is_at_end = false := by simpa using hend
  rw [if_neg hend]
  obtain ⟨c, hp⟩ := peek_ascii hA1
  rw [advance_of_peek hend' hp]
  dsimp only
  have hlt := current_lt_ascii hA1 hend'
  obtain ⟨tok, hmk⟩ := make_token_ascii
    (s := { s1 with current := s1.current + 1 }) hA1 TokenType.String
    (by show s1.start ≤ s1.current + 1; omega)
    (by show s1.current + 1 ≤ s1.source.length; exact hlt)
  rw [hmk]
  refine ⟨tok, { s1 with current := s1.current + 1 }, rfl, ?_, ?_⟩
  · show s1.source = s.source
    exact hpr.1
  · show s1.current + 1 ≤ s.source.length
    rw [← hpr.1]
    exact hlt



/-- A single-character token arm of `scan_token` cannot panic. -/
lemma mk_arm_ascii {s : Scanner} (hA : AsciiSrc s.source) (t : TokenType)
    (h1 : s.start ≤ s.current) (h2 : s.current ≤ s.source.length) :
    ∃ tk s1, (s.make_token t).map (fun tk => (tk, s)) = some (tk, s1) ∧
      s1.source = s.source ∧ s1.current ≤ s.source.length := by
obtain ⟨tok, hmk⟩ := make_token_ascii hA t h1 h2
exact ⟨tok, s, by rw [hmk]; rfl, rfl, h2⟩

/-- A one-or-two-character token arm of `scan_token` cannot panic. -/
lemma match_arm_ascii {s : Scanner} (hA : AsciiSrc s.source) (e : Char)
    (t1 t2 : TokenType) (h1 : s.start ≤ s.current)
    (h2 : s.current ≤ s.source.length) :
    ∃ tk s1, ((s.matches e).bind fun p =>
        (p.2.make_token (if p.1 then t1 else t2)).map (fun t => (t, p.2))) =
        some (tk, s1) ∧
      s1.source = s.source ∧ s1.current ≤ s.source.length := by
obtain ⟨b, s2, hm, hpr, _⟩ := matches_ascii hA e h2
have hA2 : AsciiSrc s2.source := by rw [hpr.1]; exact hA
have h12 : s2.start ≤ s2.current := by
  rw [hpr.2.1]; exact h1.trans hpr.2.2.1
have h22 : s2.current ≤ s2.source.length := by rw [hpr.1]; exact hpr.2.2.2
obtain ⟨tok, hmk⟩ := make_token_ascii hA2 (if b then t1 else t2) h12 h22
refine ⟨tok, s2, ?_, hpr.1, hpr.2.2.2⟩
rw [hm]
dsimp only [Option.bind]
rw [hmk]
rfl

/-- **C6 (amended).** On an all-ASCII source, `scan_token` never panics:
from any scanner state whose cursor is within the source — as every state
reachable from `Scanner::new` is — it returns a token and such a state
again. (Lexical failures show up only as the two `error_token` calls,
whose construction cannot fail.) On non-ASCII sources the claim fails:
see the counterexample. -/
theorem c6_scan_token_ascii_total :
    ∀ (s : Scanner), AsciiSrc s.source → s.current ≤ s.source.length →
    ∃ t s1, scan_token s = some (t, s1) ∧ s1.source = s.source ∧
      s1.current ≤ s.source.length := by
intro s0 hA hcur
obtain ⟨sw, hsw, hprw⟩ := skip_whitespace_ascii hA hcur
rw [scan_token, hsw]
dsimp only
have hAw : AsciiSrc sw.source := by rw [hprw.1]; exact hA
set s := { sw with start := sw.current } with hs
have hAs : AsciiSrc s.source := hAw
have hcs : s.current ≤ s.source.length := by
  show sw.current ≤ sw.source.length
  rw [hprw.1]
  exact hprw.2.2.2
by_cases hend : s.is_at_end
· rw [if_pos hend]
  obtain ⟨tok, hmk⟩ := make_token_ascii hAs TokenType.Eof (le_refl _) hcs
  rw [hmk]
  refine ⟨tok, s, rfl, ?_, ?_⟩
  · show sw.source = s0.source
    exact hprw.1
  · show sw.current ≤ s0.source.length
    exact hprw.2.2.2
· have hend' : s.is_at_end = false := by simpa using hend
  obtain ⟨c, hp⟩ := peek_ascii hAs
  rw [if_neg hend, advance_of_peek hend' hp]
  dsimp only
  have hlt := current_lt_ascii hAs hend'
  set s2 : Scanner := { s with current := s.current + 1 } with hs2
  have hA2 : AsciiSrc s2.source := hAs
  have h12 : s2.start ≤ s2.current := by
    show sw.current ≤ sw.current + 1
    omega
  have h22 : s2.current ≤ s2.source.length := by
    show sw.current + 1 ≤ sw.source.length
    exact hlt
  have hsrc2 : s2.source = s0.source := hprw.1
  have hbound2 : ∀ x : Scanner, x.source = s2.source →
      x.current ≤ s2.source.length →
      x.source = s0.source ∧ x.current ≤ s0.source.length := by
    intro x he hb
    rw [← hsrc2]
    exact ⟨he, hb⟩
  by_cases halpha : is_alpha c = true
  · rw [if_pos halpha]
    obtain ⟨tok, s1, heq, he, hb⟩ := identifier_ascii hA2 h12 h22
    exact ⟨tok, s1, heq, hbound2 s1 he hb⟩
  · rw [if_neg halpha]
    by_cases hdig : c.isDigit = true
    · rw [if_pos hdig]
      obtain ⟨tok, s1, heq, he, hb⟩ := number_ascii hA2 h12 h22
      exact ⟨tok, s1, heq, hbound2 s1 he hb⟩
    · rw [if_neg hdig]
      split
      all_goals
        first
        | (obtain ⟨tok, s1, heq, he, hb⟩ := string_ascii hA2 h12 h22
           exact ⟨tok, s1, heq, hbound2 s1 he hb⟩)
        | (obtain ⟨tk, s1, heq, he, hb⟩ := mk_arm_ascii hA2 _ h12 h22
           exact ⟨tk, s1, heq, hbound2 s1 he hb⟩)
        | (obtain ⟨tk, s1, heq, he, hb⟩ := match_arm_ascii hA2 '=' _ _ h12 h22
           exact ⟨tk, s1, heq, hbound2 s1 he hb⟩)
        | exact ⟨_, s2, rfl, hbound2 s2 rfl h22⟩



/-- **C6 (counterexample).** The claim quantifies over *every* input
source string, but the scanner compares the character index `current`
against the *byte* length of the source: on the one-character source "é"
(2 UTF-8 bytes) the first `scan_token` consumes the character and the
second one panics inside `peek` — `current = 1` is still below the byte
length 2, so `chars().nth(1).unwrap()` unwraps `None`. -/
theorem c6_counterexample_nonascii_panics :
    (scan_token (Scanner.new ['é'])).bind (fun p => scan_token p.2) = none := by
decide

/-- Witness for the amended C6 at a concrete state: scanning the ASCII
source "print 1;" from its initial scanner state. -/
theorem c6_scan_token_ascii_total_witness :
    ∃ t s1, scan_token (Scanner.new "print 1;".toList) = some (t, s1) ∧
      s1.source = (Scanner.new "print 1;".toList).source ∧
      s1.current ≤ (Scanner.new "print 1;".toList).source.length :=
c6_scan_token_ascii_total (Scanner.new "print 1;".toList)
  (by unfold AsciiSrc; decide) (by decide)

/-- **C1.** The claim states that scanning the keyword lexeme `var`
yields `TokenType::Var`. It yields `TokenType::Identifier`:
`identifier_type` dispatches on `self.peek()`, the character *after* the
scanned lexeme — which is never alphanumeric (the identifier loop consumed
all of those), so no keyword arm can ever fire — and `check_keyword`
compares the whole lexeme against the keyword's tail, which can never be
equal either. (The second half of the claim, that identifier-shaped
non-keywords scan as `Identifier`, does hold — every identifier-shaped
lexeme does.) -/
theorem c1_keyword_var_scans_as_identifier :
    scan_token (Scanner.new "var".toList) =
      some (⟨TokenType.Identifier, "var".toList, 1⟩, ⟨"var".toList, 0, 3, 1⟩) ∧
    TokenType.Identifier ≠ TokenType.Var ∧
    (scan_token (Scanner.new "class".toList)).map (fun p => p.1.type) =
      some TokenType.Identifier ∧
    (scan_token (Scanner.new "fun".toList)).map (fun p => p.1.type) =
      some TokenType.Identifier := by
refine ⟨by decide, by decide, by decide, by decide⟩

end Lox
